import Mathlib

/-!
Shallow embedding of the go-sqlancer orchestration core
(`pkg/sqlancer/sqlancer.go` and the executor schema loader) together with
theorems settling the frozen claims about it.

Machine integers of the source are modelled as `Nat` (no arithmetic in the
embedded fragment overflows), Go slices as `List`, Go maps as functions to
`Option`, nilable pointers as `Option`, and a Go `panic` as the `none`
branch of an `Option` result.  Randomness (`Rd`, `rand.Intn`) is passed in
as explicit outcome parameters constrained to lie in the drawn range.
-/

namespace GoSQLancer

/-- `connection.QueryItem`: the value of one result-set cell.
`null` is the NULL flag, `valString` the string rendering, and
`valTypeName` the name reported by the driver's column type
(`sql.ColumnType.Name()`, i.e. the column name or alias). -/
structure QueryItem where
  null : Bool
  valString : String
  valTypeName : String
deriving DecidableEq, Repr

/-- `compareQueryItem` (sqlancer.go:566-575): cell equality used by PQS.
Returns false when the NULL flags differ, otherwise true when both are
NULL or when the string renderings coincide. -/
def compareQueryItem (left right : QueryItem) : Bool :=
  if left.null != right.null then false
  else (left.null && right.null) || (left.valString == right.valString)

/-- `checkResultSet` (sqlancer.go:594-609): the NoREC/TLP group verdict.
A group of fewer than two result sets is correct; otherwise every result
set must have the row count of the first.  The `ignoreSort` flag is
accepted and ignored, as in the source. -/
def checkResultSet (set : List (List (List QueryItem))) (ignoreSort : Bool) : Bool :=
  if set.length < 2 then true
  else
    let length := (set.headD []).length
    set.all (fun rows => rows.length == length)

end GoSQLancer

namespace GoSQLancer

/-- C9: `compareQueryItem` is an equivalence relation on QueryItems —
reflexive, symmetric and transitive — and two items compare equal
precisely when both are null, or both are non-null with equal string
renderings. -/
theorem compareQueryItem_equivalence :
    (∀ q : QueryItem, compareQueryItem q q = true) ∧
    (∀ a b : QueryItem, compareQueryItem a b = compareQueryItem b a) ∧
    (∀ a b c : QueryItem, compareQueryItem a b = true → compareQueryItem b c = true →
      compareQueryItem a c = true) ∧
    (∀ a b : QueryItem, compareQueryItem a b = true ↔
      ((a.null = true ∧ b.null = true) ∨
        (a.null = false ∧ b.null = false ∧ a.valString = b.valString))) := by
  refine ⟨?_, ?_, ?_, ?_⟩
  · intro q
    simp [compareQueryItem]
  · intro a b
    simp only [compareQueryItem]
    rcases ha : a.null <;> rcases hb : b.null <;>
      simp [Bool.and_comm, String.ext_iff, eq_comm]
  · intro a b c hab hbc
    simp only [compareQueryItem] at *
    rcases ha : a.null <;> rcases hb : b.null <;> rcases hc : c.null <;> simp_all
  · intro a b
    simp only [compareQueryItem]
    rcases ha : a.null <;> rcases hb : b.null <;> simp [String.ext_iff]

/-- Witness for C9: the characterisation and reflexivity evaluated at
concrete items. -/
theorem compareQueryItem_equivalence_witness :
    compareQueryItem ⟨false, "7", "a"⟩ ⟨false, "7", "a"⟩ = true :=
  compareQueryItem_equivalence.1 ⟨false, "7", "a"⟩

/-- The verdict of `checkResultSet` is a function of the row counts of the
result sets alone. -/
lemma checkResultSet_shape (set : List (List (List QueryItem))) (b : Bool) :
    checkResultSet set b =
      (if (set.map List.length).length < 2 then true
       else (set.map List.length).all (fun n => n == (set.map List.length).headD 0)) := by
  cases set with
  | nil => simp [checkResultSet]
  | cons x xs =>
    simp only [checkResultSet, List.map_cons, List.headD_cons, List.length_cons,
      List.length_map, List.all_cons]
    have : (List.map List.length xs).all (fun n => n == x.length) =
        xs.all (fun rows => rows.length == x.length) := by
      induction xs with
      | nil => rfl
      | cons y ys ih => simp [ih]
    simp [this]

/-- C5: the NoREC/TLP group comparison `checkResultSet` deems a group
correct exactly when the group has fewer than two result sets or all its
result sets have equal row counts; neither the row contents nor the
`ignoreSort` flag affect the verdict. -/
theorem checkResultSet_spec :
    (∀ (set : List (List (List QueryItem))) (b : Bool),
      checkResultSet set b = true ↔
        (set.length < 2 ∨ ∀ r1 ∈ set, ∀ r2 ∈ set, r1.length = r2.length)) ∧
    (∀ (set : List (List (List QueryItem))) (b b' : Bool),
      checkResultSet set b = checkResultSet set b') ∧
    (∀ (set set' : List (List (List QueryItem))) (b b' : Bool),
      set.map List.length = set'.map List.length →
      checkResultSet set b = checkResultSet set' b') := by
  refine ⟨?_, ?_, ?_⟩
  · intro set b
    unfold checkResultSet
    by_cases h : set.length < 2
    · simp [h]
    · cases set with
      | nil => simp at h
      | cons x xs =>
        simp only [h, if_false, List.headD_cons, List.all_eq_true, beq_iff_eq]
        constructor
        · intro hall
          exact Or.inr (fun r1 h1 r2 h2 => by rw [hall r1 h1, hall r2 h2])
        · rintro (hlt | hp)
          · exact hlt.elim
          · intro rows hr
            exact hp rows hr x (List.mem_cons_self x xs)
  · intro set b b'
    rw [checkResultSet_shape, checkResultSet_shape]
  · intro set set' b b' hmap
    rw [checkResultSet_shape, checkResultSet_shape, hmap]

/-- The abort decision of the PQS mismatch branch (sqlancer.go:296-306):
after a failed verification that is not a known bug, the branch prints the
pivot row and panics iff `roundInBatch < ViewCount || Silent`. -/
def pqsMismatchAborts (roundInBatch viewCount : Nat) (silent : Bool) : Bool :=
  decide (roundInBatch < viewCount) || silent

/-- The abort decision of the NoREC/TLP mismatch branch (sqlancer.go:364-369):
`log.Fatal` exactly when `!Silent`. -/
def norecMismatchAborts (silent : Bool) : Bool :=
  !silent

/-- C1 (code bug): at `roundInBatch = 5`, `ViewCount = 2` the PQS mismatch
branch panics exactly when `Silent = true` and continues when
`Silent = false` — the opposite of the claimed behaviour — while the
NoREC/TLP branch of the same file aborts exactly when `Silent = false`,
as the claim (and the config table) state. -/
theorem pqsMismatch_silent_inverted :
    pqsMismatchAborts 5 2 true = true ∧
    pqsMismatchAborts 5 2 false = false ∧
    norecMismatchAborts true = false ∧
    norecMismatchAborts false = true := by
  decide

/-- The batch counters of the `SQLancer` struct (sqlancer.go:40-48). -/
structure BatchState where
  batch : Nat
  roundInBatch : Nat
deriving DecidableEq, Repr

/-- One iteration of the main loop `run` (sqlancer.go:231-245) at the level
of the batch counters: when `roundInBatch` is 0 the database is refreshed
and `batch` is incremented; after `progress` the round counter advances
modulo the fixed batch size 100. -/
def runStep (s : BatchState) : BatchState :=
  { batch := if s.roundInBatch = 0 then s.batch + 1 else s.batch,
    roundInBatch := (s.roundInBatch + 1) % 100 }

/-- The counters after `k` iterations of the loop, starting from the
zero-initialised `SQLancer` struct. -/
def runTrace (k : Nat) : BatchState :=
  runStep^[k] { batch := 0, roundInBatch := 0 }

lemma runTrace_succ (k : Nat) : runTrace (k + 1) = runStep (runTrace k) := by
  simp [runTrace, Function.iterate_succ_apply']

lemma runTrace_round_lt (k : Nat) : (runTrace k).roundInBatch < 100 := by
  induction k with
  | zero => simp [runTrace]
  | succ n ih =>
    rw [runTrace_succ]
    exact Nat.mod_lt _ (by norm_num)

/-- C6: throughout the main loop, `roundInBatch` stays below the fixed
batch size 100, the `batch` counter is monotonically non-decreasing, and
`batch` increments exactly on those iterations where `roundInBatch` is 0. -/
theorem run_batch_invariants :
    (∀ k, (runTrace k).roundInBatch < 100) ∧
    (∀ j k, j ≤ k → (runTrace j).batch ≤ (runTrace k).batch) ∧
    (∀ k, (runTrace (k + 1)).batch = (runTrace k).batch + 1 ↔
      (runTrace k).roundInBatch = 0) ∧
    (∀ k, (runTrace (k + 1)).batch = (runTrace k).batch ↔
      (runTrace k).roundInBatch ≠ 0) := by
  have hstep : ∀ k, (runTrace k).batch ≤ (runTrace (k + 1)).batch := by
    intro k
    rw [runTrace_succ]
    by_cases hr : (runTrace k).roundInBatch = 0 <;> simp [runStep, hr]
  refine ⟨runTrace_round_lt, ?_, ?_, ?_⟩
  · intro j k hjk
    induction hjk with
    | refl => exact le_refl _
    | step h ih => exact le_trans ih (hstep _)
  · intro k
    rw [runTrace_succ]
    by_cases hr : (runTrace k).roundInBatch = 0 <;> simp [runStep, hr]
  · intro k
    rw [runTrace_succ]
    by_cases hr : (runTrace k).roundInBatch = 0 <;> simp [runStep, hr]

/-- Witness for C6: monotonicity applied at concrete loop indices. -/
theorem run_batch_invariants_witness :
    (runTrace 3).batch ≤ (runTrace 7).batch :=
  run_batch_invariants.2.1 3 7 (by norm_num)

/-- The `testingApproach` constants (sqlancer.go:32-38, `iota` order). -/
def approachPQS : Nat := 0

def approachNoREC : Nat := 1

def approachTLP : Nat := 2

/-- The candidate list built by `progress` (sqlancer.go:252-268): rounds in
the view-seeding prefix of a batch force PQS; later rounds collect the
enabled approaches in order NoREC, PQS, TLP. -/
def approachesFor (roundInBatch viewCount : Nat)
    (enableNoREC enablePQS enableTLP : Bool) : List Nat :=
  if roundInBatch < viewCount then [approachPQS]
  else
    (if enableNoREC then [approachNoREC] else []) ++
      (if enablePQS then [approachPQS] else []) ++
      (if enableTLP then [approachTLP] else [])

/-- The approach chosen by `progress` (sqlancer.go:269): the candidate list
indexed by the outcome of `Rd(len(approaches))`. -/
def chosenApproach (roundInBatch viewCount : Nat)
    (enableNoREC enablePQS enableTLP : Bool) (rd : Nat) : Option Nat :=
  (approachesFor roundInBatch viewCount enableNoREC enablePQS enableTLP).get? rd

/-- C7: in every round of the view-seeding prefix the chosen approach is
PQS regardless of the oracle enable flags; in every later round the
candidate list is duplicate-free and contains exactly the enabled
approaches, every valid RNG draw selects a member of that list, and every
enabled approach is selected by some draw (so the uniform index draw is a
uniform choice over exactly the enabled set). -/
theorem progress_approach_selection :
    (∀ r vc eN eP eT rd, r < vc →
      rd < (approachesFor r vc eN eP eT).length →
      chosenApproach r vc eN eP eT rd = some approachPQS) ∧
    (∀ r vc eN eP eT, vc ≤ r →
      (approachesFor r vc eN eP eT).Nodup ∧
      ∀ a, a ∈ approachesFor r vc eN eP eT ↔
        ((a = approachNoREC ∧ eN = true) ∨ (a = approachPQS ∧ eP = true) ∨
          (a = approachTLP ∧ eT = true))) ∧
    (∀ r vc eN eP eT rd a, chosenApproach r vc eN eP eT rd = some a →
      a ∈ approachesFor r vc eN eP eT) ∧
    (∀ r vc eN eP eT a, a ∈ approachesFor r vc eN eP eT →
      ∃ rd, rd < (approachesFor r vc eN eP eT).length ∧
        chosenApproach r vc eN eP eT rd = some a) := by
  refine ⟨?_, ?_, ?_, ?_⟩
  · intro r vc eN eP eT rd hlt hrd
    rw [chosenApproach]
    simp only [approachesFor, if_pos hlt] at hrd ⊢
    have h0 : rd = 0 := by
      simp only [List.length_singleton] at hrd
      omega
    subst h0
    rfl
  · intro r vc eN eP eT hge
    have hnlt : ¬ r < vc := not_lt.mpr hge
    constructor
    · rcases eN <;> rcases eP <;> rcases eT <;>
        simp [approachesFor, hnlt, approachPQS, approachNoREC, approachTLP]
    · intro a
      rcases eN <;> rcases eP <;> rcases eT <;>
        simp [approachesFor, hnlt, approachPQS, approachNoREC, approachTLP]
  · intro r vc eN eP eT rd a h
    exact List.get?_mem h
  · intro r vc eN eP eT a h
    rcases List.mem_iff_get?.mp h with ⟨n, hn⟩
    exact ⟨n, (List.get?_eq_some.mp hn).1, hn⟩

/-- Witness for C7: with only NoREC enabled and ViewCount 2, round 0 still
draws PQS, and in round 5 the candidate list is exactly the NoREC
singleton. -/
theorem progress_approach_selection_witness :
    chosenApproach 0 2 true false false 0 = some approachPQS ∧
    approachNoREC ∈ approachesFor 5 2 true false false :=
  ⟨progress_approach_selection.1 0 2 true false false 0 (by norm_num) (by decide),
    ((progress_approach_selection.2.1 5 2 true false false (by norm_num)).2
      approachNoREC).mpr (Or.inl ⟨rfl, rfl⟩)⟩

/-- `types.Column`: owning table, column identifier, type tag, nullability
and alias.  `CIStr` values are carried as their raw strings; comparisons
go through case folding. -/
structure Column where
  table : String
  name : String
  tp : String
  null : Bool
  aliasName : String
deriving DecidableEq, Repr

/-- The executor/connection calls issued by the success path of a PQS
round in `progress`. -/
inductive Effect where
  | createView (name : String) (sql : String) (rowCount : Nat) (columns : List Column)
  | loadSchema
  | reloadSchema
deriving DecidableEq, Repr

/-- The view-seeding effects of a successful PQS round
(sqlancer.go:307-317): while `roundInBatch ≤ ViewCount` the connection's
`CreateViewBySelect("view_<roundInBatch>", selectSQL, len(resultRows),
columns)` runs, and when `roundInBatch == ViewCount` it is followed by
`LoadSchema()` and then `ReloadSchema()`. -/
def pqsSuccessEffects (roundInBatch viewCount : Nat) (selectSQL : String)
    (rowCount : Nat) (columns : List Column) : List Effect :=
  (if roundInBatch ≤ viewCount then
    [Effect.createView ("view_" ++ toString roundInBatch) selectSQL rowCount columns]
   else []) ++
  (if roundInBatch = viewCount then [Effect.loadSchema, Effect.reloadSchema]
   else [])

/-- C3: on a successful PQS round, `CreateViewBySelect` runs exactly when
`roundInBatch ≤ ViewCount` and always with the name
`view_<roundInBatch>`, the executed SQL, the result row count and the
result columns; `LoadSchema` followed by `ReloadSchema` runs exactly when
`roundInBatch = ViewCount` (after which the later rounds of the batch see
the created views as tables). -/
theorem pqsSuccess_view_seeding :
    (∀ r vc (sql : String) (rc : Nat) (cols : List Column),
      Effect.createView ("view_" ++ toString r) sql rc cols ∈
          pqsSuccessEffects r vc sql rc cols ↔ r ≤ vc) ∧
    (∀ r vc sql rc cols name sql' rc' (cols' : List Column),
      Effect.createView name sql' rc' cols' ∈ pqsSuccessEffects r vc sql rc cols →
      name = "view_" ++ toString r ∧ sql' = sql ∧ rc' = rc ∧ cols' = cols) ∧
    (∀ r vc (sql : String) (rc : Nat) (cols : List Column),
      Effect.loadSchema ∈ pqsSuccessEffects r vc sql rc cols ↔ r = vc) ∧
    (∀ r vc (sql : String) (rc : Nat) (cols : List Column),
      Effect.reloadSchema ∈ pqsSuccessEffects r vc sql rc cols ↔ r = vc) ∧
    (∀ vc (sql : String) (rc : Nat) (cols : List Column),
      pqsSuccessEffects vc vc sql rc cols =
        [Effect.createView ("view_" ++ toString vc) sql rc cols,
          Effect.loadSchema, Effect.reloadSchema]) := by
  refine ⟨?_, ?_, ?_, ?_, ?_⟩
  · intro r vc sql rc cols
    unfold pqsSuccessEffects
    split_ifs with h1 h2 <;> simp_all
  · intro r vc sql rc cols name sql' rc' cols' hmem
    unfold pqsSuccessEffects at hmem
    split_ifs at hmem with h1 h2 <;> simp_all
  · intro r vc sql rc cols
    unfold pqsSuccessEffects
    split_ifs with h1 h2 <;> simp_all
  · intro r vc sql rc cols
    unfold pqsSuccessEffects
    split_ifs with h1 h2 <;> simp_all
  · intro vc sql rc cols
    unfold pqsSuccessEffects
    simp

/-- Witness for C3: round 1 of a batch with ViewCount 2 creates
`view_1`. -/
theorem pqsSuccess_view_seeding_witness :
    Effect.createView ("view_" ++ toString 1) "select 1" 3 [] ∈
      pqsSuccessEffects 1 2 "select 1" 3 [] :=
  (pqsSuccess_view_seeding.1 1 2 "select 1" 3 []).mpr (by norm_num)

/-- The table-count computation of `randTables` (sqlancer.go:462-474):
`count` starts at 1; with more than one table, `count = Rd(n-1)+1`, and if
that exceeds 4 it is redrawn as `Rd(4)+1`.  `r1` and `r2` are the
respective `Rd` outcomes; the function then returns `count` shuffled
tables, so `count` is the size of the returned list. -/
def randTablesCount (n r1 r2 : Nat) : Nat :=
  if 1 < n then
    if r1 + 1 > 4 then r2 + 1 else r1 + 1
  else 1

/-- C4 counterexample: with n = 2 tables, every RNG outcome yields exactly
one table (`Rd(1)` is always 0), so the claimed attainable count
2 = min 2 4 is never returned. -/
theorem randTables_attainability_counterexample :
    (¬ ∃ r1, r1 < 2 - 1 ∧ ∃ r2, r2 < 4 ∧ randTablesCount 2 r1 r2 = 2) ∧
    1 ≤ 2 ∧ 2 ≤ min 2 4 := by
  refine ⟨?_, by norm_num, by norm_num⟩
  rintro ⟨r1, hr1, r2, hr2, hc⟩
  have h0 : r1 = 0 := by omega
  subst h0
  simp [randTablesCount] at hc

/-- C4 amended: for every table list of size n ≥ 1 and every valid RNG
outcome, `randTables` returns between 1 and min n 4 tables; the count
never exceeds min (n−1) 4 (1 when n = 1), so for 2 ≤ n ≤ 4 the count
min n 4 itself is unattainable, and exactly the counts
1..min (n−1) 4 (just 1 when n = 1) are attainable. -/
theorem randTablesCount_range_and_attainable :
    (∀ n r1 r2, 1 ≤ n → r1 < max (n - 1) 1 → r2 < 4 →
      1 ≤ randTablesCount n r1 r2 ∧ randTablesCount n r1 r2 ≤ min n 4) ∧
    (∀ n r1 r2, 1 ≤ n → r1 < max (n - 1) 1 → r2 < 4 →
      randTablesCount n r1 r2 ≤ (if n = 1 then 1 else min (n - 1) 4)) ∧
    (∀ n r1 r2, 2 ≤ n → n ≤ 4 → r1 < max (n - 1) 1 → r2 < 4 →
      randTablesCount n r1 r2 ≠ min n 4) ∧
    (∀ n k, 1 ≤ n → 1 ≤ k → k ≤ (if n = 1 then 1 else min (n - 1) 4) →
      ∃ r1 r2, r1 < max (n - 1) 1 ∧ r2 < 4 ∧ randTablesCount n r1 r2 = k) := by
  refine ⟨?_, ?_, ?_, ?_⟩
  · intro n r1 r2 hn h1 h2
    unfold randTablesCount
    split_ifs <;> omega
  · intro n r1 r2 hn h1 h2
    unfold randTablesCount
    split_ifs <;> omega
  · intro n r1 r2 hn2 hn4 h1 h2
    unfold randTablesCount
    split_ifs <;> omega
  · intro n k hn hk1 hk2
    by_cases hone : n = 1
    · subst hone
      simp only [if_true, if_pos trivial, reduceIte] at hk2
      have hk : k = 1 := by omega
      subst hk
      exact ⟨0, 0, by norm_num, by norm_num, rfl⟩
    · simp only [if_neg hone] at hk2
      refine ⟨k - 1, 0, by omega, by norm_num, ?_⟩
      unfold randTablesCount
      split_ifs <;> omega

/-- Witness for C4 (amended): with 5 tables and first draw 2, the returned
count is within 1..min 5 4. -/
theorem randTablesCount_range_and_attainable_witness :
    1 ≤ randTablesCount 5 2 0 ∧ randTablesCount 5 2 0 ≤ min 5 4 :=
  randTablesCount_range_and_attainable.1 5 2 0 (by norm_num) (by norm_num)
    (by norm_num)

/-- Witness for C5: the characterisation applied to a concrete group whose
two result sets have different row counts. -/
theorem checkResultSet_spec_witness :
    checkResultSet [[[⟨false, "1", "a"⟩]], []] true = false := by
  have h := (checkResultSet_spec.1 [[[⟨false, "1", "a"⟩]], []] true)
  by_contra hc
  have : checkResultSet [[[⟨false, "1", "a"⟩]], []] true = true := by
    revert hc
    cases checkResultSet [[[⟨false, "1", "a"⟩]], []] true <;> simp
  rcases h.mp this with hlt | hp
  · simp at hlt
  · have := hp [[⟨false, "1", "a"⟩]] (by simp) [] (by simp)
    simp at this

/-- `types.Table`: identifier, columns, index identifiers and the table
type tag ("BASE TABLE" or "VIEW"). -/
structure Table where
  name : String
  columns : List Column
  indexes : List String
  tp : String
deriving DecidableEq, Repr

/-- Case folding of an identifier, character by character (the executable
counterpart of `strings.ToLower`/`strings.EqualFold` on ASCII
identifiers). -/
def toLowerStr (s : String) : String :=
  ⟨s.data.map Char.toLower⟩

/-- Modelled from the spec: `Column.String` from `pkg/types` is not among
the sources; per §3, the PivotRow is keyed by the case-folded dotted
`table.column` form of the column. -/
def columnKey (table name : String) : String :=
  toLowerStr table ++ "." ++ toLowerStr name

/-- The pivot sampling query issued per chosen table (sqlancer.go:484). -/
def sampleSQL (tableName : String) : String :=
  "SELECT * FROM " ++ tableName ++ " ORDER BY RAND() LIMIT 1;"

/-- The loop of `ChoosePivotedRow` (sqlancer.go:478-500) with the database
modelled as an oracle from SQL text to result rows.  For each chosen
table, one row is sampled; when the sample is non-empty every cell of its
first row is stored in the pivot map under the `table.column` key (the
cell's `valTypeName` is the column name reported by the driver) and the
table is appended to `reallyUsed`; a table with an empty sample is
skipped.  The Go map is modelled as an association list in which the most
recent insertion for a key wins. -/
def choosePivotedRowLoop (oracle : String → List (List QueryItem)) :
    List Table → List (String × QueryItem) → List Table →
      List (String × QueryItem) × List Table
  | [], result, reallyUsed => (result, reallyUsed)
  | i :: rest, result, reallyUsed =>
    let exeRes := oracle (sampleSQL i.name)
    if 0 < exeRes.length then
      choosePivotedRowLoop oracle rest
        ((exeRes.headD []).foldl
          (fun m c => (columnKey i.name c.valTypeName, c) :: m) result)
        (reallyUsed ++ [i])
    else
      choosePivotedRowLoop oracle rest result reallyUsed

/-- `ChoosePivotedRow` (sqlancer.go:478-500), returning the pivot map and
the list of tables actually used. -/
def choosePivotedRow (oracle : String → List (List QueryItem))
    (usedTables : List Table) : List (String × QueryItem) × List Table :=
  choosePivotedRowLoop oracle usedTables [] []

/-- Lookup in the modelled Go map: the value of the most recent insertion
under the key. -/
def pivotLookup (m : List (String × QueryItem)) (k : String) :
    Option QueryItem :=
  (m.find? (fun p => p.1 == k)).map Prod.snd

/-- The tables that survive sampling: those whose sample query returns at
least one row, in order. -/
def keptTables (oracle : String → List (List QueryItem))
    (ts : List Table) : List Table :=
  ts.filter (fun t => 0 < (oracle (sampleSQL t.name)).length)

/-- The key/value pairs one kept table contributes to the pivot map. -/
def rowPairs (oracle : String → List (List QueryItem)) (t : Table) :
    List (String × QueryItem) :=
  ((oracle (sampleSQL t.name)).headD []).map
    (fun c => (columnKey t.name c.valTypeName, c))

/-- All pivot-map insertions of a run, in insertion order. -/
def pivotInserts (oracle : String → List (List QueryItem))
    (ts : List Table) : List (String × QueryItem) :=
  ((keptTables oracle ts).map (rowPairs oracle)).flatten

lemma foldl_prepend_eq {α β : Type} (f : α → β) :
    ∀ (row : List α) (m : List β),
      row.foldl (fun acc c => f c :: acc) m = (row.map f).reverse ++ m := by
  intro row
  induction row with
  | nil => intro m; rfl
  | cons c cs ih =>
    intro m
    simp only [List.foldl_cons, List.map_cons, List.reverse_cons, ih]
    simp

lemma choosePivotedRowLoop_eq (oracle : String → List (List QueryItem)) :
    ∀ (ts : List Table) (m : List (String × QueryItem)) (ru : List Table),
      choosePivotedRowLoop oracle ts m ru =
        ((pivotInserts oracle ts).reverse ++ m, ru ++ keptTables oracle ts) := by
  intro ts
  induction ts with
  | nil =>
    intro m ru
    simp [choosePivotedRowLoop, pivotInserts, keptTables]
  | cons i rest ih =>
    intro m ru
    by_cases hs : 0 < (oracle (sampleSQL i.name)).length
    · rw [choosePivotedRowLoop]
      simp only [hs, if_true, ih]
      rw [Prod.mk.injEq]
      constructor
      · rw [foldl_prepend_eq]
        have hins : pivotInserts oracle (i :: rest) =
            rowPairs oracle i ++ pivotInserts oracle rest := by
          simp [pivotInserts, keptTables, rowPairs, hs, List.filter_cons]
        rw [hins]
        simp [List.reverse_append, rowPairs]
      · have hkept : keptTables oracle (i :: rest) =
            i :: keptTables oracle rest := by
          simp [keptTables, List.filter_cons, hs]
        rw [hkept]
        simp
    · rw [choosePivotedRowLoop]
      simp only [hs, if_false, ih]
      have hins : pivotInserts oracle (i :: rest) = pivotInserts oracle rest := by
        simp [pivotInserts, keptTables, List.filter_cons, hs]
      have hkept : keptTables oracle (i :: rest) = keptTables oracle rest := by
        simp [keptTables, List.filter_cons, hs]
      rw [hins, hkept]

lemma pivotLookup_of_nodup :
    ∀ (l : List (String × QueryItem)), (l.map Prod.fst).Nodup →
      ∀ k v, (k, v) ∈ l → pivotLookup l k = some v := by
  intro l
  induction l with
  | nil => intro _ k v hmem; simp at hmem
  | cons p l ih =>
    intro hnd k v hmem
    obtain ⟨p1, p2⟩ := p
    simp only [List.map_cons, List.nodup_cons] at hnd
    rcases List.mem_cons.mp hmem with heq | htail
    · obtain ⟨hk, hv⟩ := Prod.mk.inj heq
      subst hk
      subst hv
      simp [pivotLookup]
    · have hne : k ≠ p1 := by
        intro hkp
        subst hkp
        exact hnd.1 (List.mem_map.mpr ⟨(k, v), htail, rfl⟩)
      have hfalse : (((p1, p2) : String × QueryItem).1 == k) = false :=
        beq_eq_false_iff_ne.mpr (Ne.symm hne)
      simp only [pivotLookup, List.find?_cons, hfalse]
      exact ih hnd.2 k v htail

/-- C2: the pivot map built by `ChoosePivotedRow` stores, for every table
kept in the working set, the sampled cell of each of its columns under
the dotted `table.column` key (provided those keys are pairwise
distinct, as they are for distinct tables and columns), and tables whose
sampling query returns zero rows are dropped from the returned table
list without error. -/
theorem choosePivotedRow_spec (oracle : String → List (List QueryItem))
    (usedTables : List Table)
    (hkeys : ((pivotInserts oracle usedTables).map Prod.fst).Nodup) :
    (choosePivotedRow oracle usedTables).2 =
      usedTables.filter (fun t => 0 < (oracle (sampleSQL t.name)).length) ∧
    ∀ t ∈ (choosePivotedRow oracle usedTables).2,
      ∀ c ∈ (oracle (sampleSQL t.name)).headD [],
        pivotLookup (choosePivotedRow oracle usedTables).1
          (columnKey t.name c.valTypeName) = some c := by
  have hloop := choosePivotedRowLoop_eq oracle usedTables [] []
  rw [choosePivotedRow, hloop]
  constructor
  · simp [keptTables]
  · intro t ht c hc
    have ht' : t ∈ keptTables oracle usedTables := by
      simpa [keptTables] using ht
    have hmem : (columnKey t.name c.valTypeName, c) ∈
        pivotInserts oracle usedTables := by
      rw [pivotInserts, List.mem_flatten]
      exact ⟨rowPairs oracle t, List.mem_map.mpr ⟨t, ht', rfl⟩,
        List.mem_map.mpr ⟨c, hc, rfl⟩⟩
    have hnodup : ((pivotInserts oracle usedTables).reverse.map Prod.fst).Nodup := by
      rw [List.map_reverse]
      exact List.nodup_reverse.mpr hkeys
    have hlook := pivotLookup_of_nodup _ hnodup _ _ (List.mem_reverse.mpr hmem)
    simpa using hlook

/-- Concrete inputs for the C2 witness: table t1 has one sampled row with
columns a and b, table t2 samples no rows. -/
def pivotTable1W : Table :=
  ⟨"t1", [], [], "BASE TABLE"⟩

def pivotTable2W : Table :=
  ⟨"t2", [], [], "BASE TABLE"⟩

def pivotOracleW : String → List (List QueryItem) :=
  fun s =>
    if s = sampleSQL "t1" then [[⟨false, "1", "a"⟩, ⟨true, "", "b"⟩]] else []

/-- Witness for C2: the empty-sample table t2 is dropped and only t1 is
kept. -/
theorem choosePivotedRow_spec_witness :
    (choosePivotedRow pivotOracleW [pivotTable1W, pivotTable2W]).2 =
      [pivotTable1W] := by
  have h := (choosePivotedRow_spec pivotOracleW [pivotTable1W, pivotTable2W]
    (by decide)).1
  rw [h]
  decide

/-- Modelled from the spec: `Column.GetAliasName` from `pkg/types` is not
among the sources; per §4.3.1 (6), PQS verification compares result cells
"against the pivot using column aliases as keys", so a column's key is
its alias identifier. -/
def getAliasName (c : Column) : String :=
  c.aliasName

/-- The loop body of `checkRow` (sqlancer.go:538-546): walk the columns
with their index `i`, reading `resultSet[i]` and the pivot cell under the
column's alias.  An out-of-range index or a missing (nil) pivot cell is a
Go panic, modelled as `none`; a cell mismatch returns `some false`
immediately, as the source returns `false`. -/
def checkRowAux (originRow : String → Option QueryItem)
    (resultSet : List QueryItem) : Nat → List Column → Option Bool
  | _, [] => some true
  | i, c :: cs =>
    match resultSet[i]? with
    | none => none
    | some r =>
      match originRow (getAliasName c) with
      | none => none
      | some l =>
        if compareQueryItem l r then checkRowAux originRow resultSet (i + 1) cs
        else some false

/-- `checkRow` (sqlancer.go:538-546). -/
def checkRow (originRow : String → Option QueryItem) (columns : List Column)
    (resultSet : List QueryItem) : Option Bool :=
  checkRowAux originRow resultSet 0 columns

/-- `verifyPQS` (sqlancer.go:529-536): true as soon as one result row
checks against the pivot, false when none does; a panic inside `checkRow`
propagates. -/
def verifyPQS (originRow : String → Option QueryItem) (columns : List Column) :
    List (List QueryItem) → Option Bool
  | [] => some false
  | row :: rest =>
    match checkRow originRow columns row with
    | none => none
    | some true => some true
    | some false => verifyPQS originRow columns rest

/-- Whether one (column, cell) pair agrees with the pivot row. -/
def pivotCellMatches (originRow : String → Option QueryItem)
    (p : Column × QueryItem) : Bool :=
  match originRow (getAliasName p.1) with
  | some l => compareQueryItem l p.2
  | none => false

/-- The pure row check the claim describes: every column position of the
row compares equal to the pivot cell per `compareQueryItem`. -/
def checkRowPure (originRow : String → Option QueryItem) (columns : List Column)
    (resultSet : List QueryItem) : Bool :=
  (columns.zip resultSet).all (pivotCellMatches originRow)

/-- The structural reading of the `checkRow` loop: consuming the column
list and the row tail together is the same as indexing the row. -/
def checkRowStruct (originRow : String → Option QueryItem) :
    List Column → List QueryItem → Option Bool
  | [], _ => some true
  | _ :: _, [] => none
  | c :: cs, r :: rs =>
    match originRow (getAliasName c) with
    | none => none
    | some l =>
      if compareQueryItem l r then checkRowStruct originRow cs rs
      else some false

lemma checkRowAux_eq_struct (originRow : String → Option QueryItem)
    (resultSet : List QueryItem) :
    ∀ (cs : List Column) (i : Nat),
      checkRowAux originRow resultSet i cs =
        checkRowStruct originRow cs (resultSet.drop i) := by
  intro cs
  induction cs with
  | nil => intro i; cases resultSet.drop i <;> rfl
  | cons c cs ih =>
    intro i
    by_cases hi : i < resultSet.length
    · rw [checkRowAux, List.getElem?_eq_getElem hi, List.drop_eq_getElem_cons hi,
        checkRowStruct]
      cases originRow (getAliasName c) with
      | none => rfl
      | some l =>
        by_cases hcmp : compareQueryItem l resultSet[i] = true
        · simp only [hcmp, if_true]
          exact ih (i + 1)
        · simp only [hcmp, if_false]
          simp only [Bool.not_eq_true] at hcmp
          simp [hcmp]
    · have hnone : resultSet[i]? = none := by
        rw [List.getElem?_eq_none_iff]
        omega
      have hdrop : resultSet.drop i = [] := by
        rw [List.drop_eq_nil_iff]
        omega
      rw [checkRowAux, hnone, hdrop, checkRowStruct]

lemma checkRowStruct_eq_pure (originRow : String → Option QueryItem) :
    ∀ (cs : List Column) (rs : List QueryItem),
      cs.length ≤ rs.length →
      (∀ c ∈ cs, (originRow (getAliasName c)).isSome = true) →
      checkRowStruct originRow cs rs =
        some ((cs.zip rs).all (pivotCellMatches originRow)) := by
  intro cs
  induction cs with
  | nil => intro rs _ _; rfl
  | cons c cs ih =>
    intro rs hlen hpiv
    cases rs with
    | nil => simp at hlen
    | cons r rs =>
      obtain ⟨l, hl⟩ := Option.isSome_iff_exists.mp
        (hpiv c (List.mem_cons_self c cs))
      rw [checkRowStruct, hl]
      show (if compareQueryItem l r = true then checkRowStruct originRow cs rs
        else some false) = _
      by_cases hcmp : compareQueryItem l r = true
      · rw [if_pos hcmp, ih rs (by simpa using hlen)
          (fun x hx => hpiv x (List.mem_cons_of_mem c hx))]
        simp [pivotCellMatches, hl, hcmp]
      · rw [if_neg hcmp]
        simp only [Bool.not_eq_true] at hcmp
        simp [pivotCellMatches, hl, hcmp]

lemma checkRow_eq_pure (originRow : String → Option QueryItem)
    (columns : List Column) (row : List QueryItem)
    (hlen : columns.length ≤ row.length)
    (hpiv : ∀ c ∈ columns, (originRow (getAliasName c)).isSome = true) :
    checkRow originRow columns row =
      some (checkRowPure originRow columns row) := by
  rw [checkRow, checkRowAux_eq_struct, List.drop_zero, checkRowPure]
  exact checkRowStruct_eq_pure originRow columns row hlen hpiv

/-- C10: under the precondition that every result row has at least as many
cells as there are columns and that the pivot map holds a non-nil cell
under every column alias, `checkRow` never reaches its out-of-bounds or
nil-dereference panics and returns exactly the pure columnwise
comparison, and `verifyPQS` returns whether some result row matches. -/
theorem checkRow_verifyPQS_safe
    (originRow : String → Option QueryItem) (columns : List Column)
    (resultSets : List (List QueryItem))
    (hlen : ∀ row ∈ resultSets, columns.length ≤ row.length)
    (hpiv : ∀ c ∈ columns, (originRow (getAliasName c)).isSome = true) :
    (∀ row ∈ resultSets, checkRow originRow columns row =
      some (checkRowPure originRow columns row)) ∧
    verifyPQS originRow columns resultSets =
      some (resultSets.any (checkRowPure originRow columns)) ∧
    (∀ row, checkRowPure originRow columns row = true ↔
      ∀ p ∈ columns.zip row, ∃ l, originRow (getAliasName p.1) = some l ∧
        compareQueryItem l p.2 = true) := by
  refine ⟨?_, ?_, ?_⟩
  · intro row hrow
    exact checkRow_eq_pure originRow columns row (hlen row hrow) hpiv
  · induction resultSets with
    | nil => rfl
    | cons row rest ih =>
      rw [verifyPQS, checkRow_eq_pure originRow columns row
        (hlen row (List.mem_cons_self row rest)) hpiv]
      by_cases hb : checkRowPure originRow columns row = true
      · simp [hb]
      · simp only [Bool.not_eq_true] at hb
        simp only [hb]
        rw [ih (fun r hr => hlen r (List.mem_cons_of_mem row hr))]
        simp [hb]
  · intro row
    rw [checkRowPure, List.all_eq_true]
    constructor
    · intro hall p hp
      have := hall p hp
      rw [pivotCellMatches] at this
      cases horigin : originRow (getAliasName p.1) with
      | none => rw [horigin] at this; exact absurd this (by simp)
      | some l => rw [horigin] at this; exact ⟨l, rfl, this⟩
    · intro hall p hp
      obtain ⟨l, hl, hcmp⟩ := hall p hp
      rw [pivotCellMatches, hl]
      exact hcmp

/-- A concrete pivot cell, column and pivot map for the C10 witness. -/
def pivotItemW : QueryItem :=
  ⟨false, "1", "a"⟩

def pivotColW : Column :=
  ⟨"t", "a", "int", false, "t.a"⟩

def pivotMapW : String → Option QueryItem :=
  fun k => if k = "t.a" then some pivotItemW else none

/-- Witness for C10: with a one-column pivot present in the map and a
matching one-cell result row, `verifyPQS` returns `some true`. -/
theorem checkRow_verifyPQS_safe_witness :
    verifyPQS pivotMapW [pivotColW] [[pivotItemW]] =
      some ([[pivotItemW]].any (checkRowPure pivotMapW [pivotColW])) :=
  (checkRow_verifyPQS_safe pivotMapW [pivotColW] [[pivotItemW]]
    (by intro row hrow; simp at hrow; simp [hrow])
    (by intro c hc; simp at hc; simp [hc, pivotMapW, getAliasName, pivotColW])).2.1

/-- Modelled from the spec: case-insensitive identifier comparison
(`CIStr.EqString` from `pkg/types`, not among the sources): per §3, hash
and equality of identifiers ignore case. -/
def eqFold (a b : String) : Bool :=
  toLowerStr a == toLowerStr b

/-- Modelled from the spec: `Column.ParseType` from `pkg/types` is not
among the sources; per §4.1 it strips a trailing parenthesised width
(regex `\(\d+\)`) from the fetched column type and keeps the remainder
as the type tag. -/
def parseTypeStr (s : String) : String :=
  match s.data.reverse with
  | ')' :: rest =>
    let digits := rest.takeWhile Char.isDigit
    match rest.drop digits.length with
    | '(' :: remaining =>
      if digits.isEmpty then s else ⟨remaining.reverse⟩
    | _ => s
  | _ => s

/-- One catalogue record fetched by `FetchSchema`:
(db, table, tableType, column, columnType, nullable). -/
structure SchemaRecord where
  db : String
  table : String
  tableType : String
  column : String
  columnType : String
  nullable : String
deriving DecidableEq, Repr

/-- The inner column scan of `loadSchema` (part_000:80-85): the first
column whose name equals the record's column name modulo case has its
type and nullability updated in place (with the raw fetched type);
`none` when no column matches. -/
def updateColumns : List Column → SchemaRecord → Option (List Column)
  | [], _ => none
  | c :: rest, r =>
    if eqFold c.name r.column then
      some ({ c with tp := r.columnType, null := eqFold r.nullable "Yes" } :: rest)
    else
      (updateColumns rest r).map (fun cs => c :: cs)

/-- The fresh column appended by `loadSchema` (part_000:87-94). -/
def newColumn (r : SchemaRecord) : Column :=
  { table := r.table, name := r.column, tp := parseTypeStr r.columnType,
    null := eqFold r.nullable "Yes", aliasName := "" }

/-- Assignment to the `e.tables` Go map, modelled as a function update. -/
def mapUpdate (m : String → Option Table) (key : String) (t : Table) :
    String → Option Table :=
  fun k => if k = key then some t else m k

/-- The table the record lands in (part_000:71-78): the existing cache
entry, or a fresh table with the record's name, type tag and fetched
indexes. -/
def baseTable (indexes : String → List String)
    (tables : String → Option Table) (r : SchemaRecord) : Table :=
  match tables r.table with
  | some t => t
  | none => Table.mk r.table [] (indexes r.table) r.tableType

/-- The record's table after folding in its column (part_000:80-94):
update the case-insensitive match in place, or append a fresh column. -/
def loadSchemaTbl (indexes : String → List String)
    (tables : String → Option Table) (r : SchemaRecord) : Table :=
  match updateColumns (baseTable indexes tables r).columns r with
  | some cols => { baseTable indexes tables r with columns := cols }
  | none =>
    { baseTable indexes tables r with
        columns := (baseTable indexes tables r).columns ++ [newColumn r] }

/-- One iteration of the `loadSchema` record loop (part_000:52-95).
Records of a foreign database are skipped; otherwise the record's table
entry is rebuilt and stored. -/
def loadSchemaStep (db : String) (indexes : String → List String)
    (tables : String → Option Table) (r : SchemaRecord) :
    String → Option Table :=
  if r.db ≠ db then tables
  else mapUpdate tables r.table (loadSchemaTbl indexes tables r)

/-- `loadSchema` (part_000:49-96): rebuild the table cache from the
fetched records, starting from the empty map. -/
def loadSchema (db : String) (indexes : String → List String)
    (records : List SchemaRecord) : String → Option Table :=
  records.foldl (loadSchemaStep db indexes) (fun _ => none)

lemma updateColumns_decomp :
    ∀ (cols : List Column) (r : SchemaRecord) (cols' : List Column),
      updateColumns cols r = some cols' →
      ∃ pre c post, cols = pre ++ c :: post ∧
        (∀ x ∈ pre, eqFold x.name r.column = false) ∧
        eqFold c.name r.column = true ∧
        cols' = pre ++
          { c with tp := r.columnType, null := eqFold r.nullable "Yes" } :: post := by
  intro cols
  induction cols with
  | nil => intro r cols' h; simp [updateColumns] at h
  | cons c rest ih =>
    intro r cols' h
    rw [updateColumns] at h
    by_cases hc : eqFold c.name r.column = true
    · rw [if_pos hc, Option.some_inj] at h
      exact ⟨[], c, rest, by simp, by simp, hc, by simp [h.symm]⟩
    · rw [if_neg hc, Option.map_eq_some'] at h
      obtain ⟨cs', hcs', hcons⟩ := h
      obtain ⟨pre, c0, post, hsplit, hpre, hc0, hres⟩ := ih r cs' hcs'
      refine ⟨c :: pre, c0, post, by simp [hsplit], ?_, hc0,
        by simp [hcons.symm, hres]⟩
      intro x hx
      rcases List.mem_cons.mp hx with hxc | hxp
      · subst hxc
        simpa using hc
      · exact hpre x hxp

lemma updateColumns_none_iff :
    ∀ (cols : List Column) (r : SchemaRecord),
      updateColumns cols r = none ↔
        ∀ c ∈ cols, eqFold c.name r.column = false := by
  intro cols
  induction cols with
  | nil => intro r; simp [updateColumns]
  | cons c rest ih =>
    intro r
    rw [updateColumns]
    by_cases hc : eqFold c.name r.column = true
    · simp [hc]
    · have hcf : eqFold c.name r.column = false := by
        simpa using hc
      simp [hcf, Option.map_eq_none', ih r]

lemma updateColumns_names (cols : List Column) (r : SchemaRecord)
    (cols' : List Column) (h : updateColumns cols r = some cols') :
    cols'.map Column.name = cols.map Column.name := by
  obtain ⟨pre, c, post, hsplit, _, _, hres⟩ := updateColumns_decomp cols r cols' h
  subst hsplit
  subst hres
  simp

/-- Pairwise case-distinctness of column names. -/
def ColsUnique (cols : List Column) : Prop :=
  cols.Pairwise (fun a b => eqFold a.name b.name = false)

lemma colsUnique_of_names_eq {cols cols' : List Column}
    (hnames : cols'.map Column.name = cols.map Column.name)
    (h : ColsUnique cols) : ColsUnique cols' := by
  rw [ColsUnique, ← List.pairwise_map (f := Column.name)
    (R := fun a b => eqFold a b = false), hnames, List.pairwise_map]
  exact h

lemma baseTable_unique (indexes : String → List String)
    (m : String → Option Table) (r : SchemaRecord)
    (hm : ∀ k t, m k = some t → ColsUnique t.columns) :
    ColsUnique (baseTable indexes m r).columns := by
  rw [baseTable]
  cases hmr : m r.table with
  | some t0 => exact hm r.table t0 hmr
  | none => exact List.Pairwise.nil

lemma loadSchemaTbl_unique (indexes : String → List String)
    (m : String → Option Table) (r : SchemaRecord)
    (hm : ∀ k t, m k = some t → ColsUnique t.columns) :
    ColsUnique (loadSchemaTbl indexes m r).columns := by
  cases hupd : updateColumns (baseTable indexes m r).columns r with
  | some cols' =>
    rw [loadSchemaTbl, hupd]
    exact colsUnique_of_names_eq (updateColumns_names _ r cols' hupd)
      (baseTable_unique indexes m r hm)
  | none =>
    rw [loadSchemaTbl, hupd]
    have happ : ColsUnique ((baseTable indexes m r).columns ++ [newColumn r]) := by
      rw [ColsUnique, List.pairwise_append]
      refine ⟨baseTable_unique indexes m r hm, List.pairwise_singleton _ _, ?_⟩
      intro a ha b hb
      have hbn : b = newColumn r := by simpa using hb
      subst hbn
      exact (updateColumns_none_iff _ r).mp hupd a ha
    exact happ

lemma loadSchemaStep_preserves (db : String) (indexes : String → List String)
    (r : SchemaRecord) (m : String → Option Table)
    (hm : ∀ k t, m k = some t → ColsUnique t.columns) :
    ∀ k t, loadSchemaStep db indexes m r k = some t → ColsUnique t.columns := by
  intro k t hk
  by_cases hdb : r.db ≠ db
  · rw [loadSchemaStep, if_pos hdb] at hk
    exact hm k t hk
  · rw [loadSchemaStep, if_neg hdb] at hk
    simp only [mapUpdate] at hk
    by_cases hkr : k = r.table
    · rw [if_pos hkr, Option.some_inj] at hk
      subst hk
      exact loadSchemaTbl_unique indexes m r hm
    · rw [if_neg hkr] at hk
      exact hm k t hk

/-- C8: after `loadSchema` rebuilds the cache, every table's column
identifiers are pairwise distinct modulo case; a record matching an
existing column case-insensitively rewrites that column's type and
nullability in place (leaving the name list unchanged), and a new column
is appended exactly when no existing column matches. -/
theorem loadSchema_columns_unique_mod_case :
    (∀ (db : String) (indexes : String → List String)
        (records : List SchemaRecord) (tname : String) (t : Table),
      loadSchema db indexes records tname = some t → ColsUnique t.columns) ∧
    (∀ (cols : List Column) (r : SchemaRecord) (cols' : List Column),
      updateColumns cols r = some cols' →
      ∃ pre c post, cols = pre ++ c :: post ∧
        (∀ x ∈ pre, eqFold x.name r.column = false) ∧
        eqFold c.name r.column = true ∧
        cols' = pre ++
          { c with tp := r.columnType, null := eqFold r.nullable "Yes" } :: post) ∧
    (∀ (cols : List Column) (r : SchemaRecord),
      updateColumns cols r = none ↔
        ∀ c ∈ cols, eqFold c.name r.column = false) := by
  refine ⟨?_, updateColumns_decomp, updateColumns_none_iff⟩
  intro db indexes records
  rw [loadSchema]
  have hgen : ∀ (m : String → Option Table),
      (∀ k t, m k = some t → ColsUnique t.columns) →
      ∀ (tname : String) (t : Table),
        (records.foldl (loadSchemaStep db indexes) m) tname = some t →
        ColsUnique t.columns := by
    induction records with
    | nil => intro m hm tname t h; exact hm tname t h
    | cons r rs ih =>
      intro m hm tname t h
      rw [List.foldl_cons] at h
      exact ih (loadSchemaStep db indexes m r)
        (loadSchemaStep_preserves db indexes r m hm) tname t h
  exact hgen (fun _ => none) (by intro k t h; simp at h)

/-- Concrete records for the C8 witness: the same (t1, A) column fetched
twice, once as `A int(11) NO` and once as `a float YES`. -/
def schemaRecsW : List SchemaRecord :=
  [⟨"test", "t1", "BASE TABLE", "A", "int(11)", "NO"⟩,
   ⟨"test", "t1", "BASE TABLE", "a", "float", "YES"⟩]

/-- Witness for C8: folding the duplicate record leaves t1 with the
single column A (type rewritten to the raw `float`, nullability to
true), whose name list is unique modulo case. -/
theorem loadSchema_columns_unique_mod_case_witness :
    ColsUnique (Table.mk "t1" [Column.mk "t1" "A" "float" true ""]
      [] "BASE TABLE").columns :=
  loadSchema_columns_unique_mod_case.1 "test" (fun _ => []) schemaRecsW "t1"
    (Table.mk "t1" [Column.mk "t1" "A" "float" true ""] [] "BASE TABLE")
    (by decide)

end GoSQLancer
